import Mathlib

/-!
Verification development for the Nand2Tetris HDL parser and chip simulator
(src/src/hdl_parser.py, src/src/chip_simulator.py, src/src/gates/builtin_gates.py).

Python dicts are modelled as insertion-ordered association lists, optional
values (None) as `Option`, raised exceptions as `Except`, and the unbounded
recursion of nested chip instantiation/simulation as fuel-indexed recursion
(the fuel branch is unreachable for any fuel larger than the nesting depth).
-/

set_option maxRecDepth 8000

namespace HDL

/-- Insertion into a Python-dict model: updating an existing key keeps its
position, a new key is appended at the end. -/
def dictInsert {α : Type} (l : List (String × α)) (k : String) (v : α) :
    List (String × α) :=
  match l with
  | [] => [(k, v)]
  | (k', v') :: rest => if k' = k then (k, v) :: rest else (k', v') :: dictInsert rest k v

/-- Lookup in a Python-dict model. `none` corresponds to a missing key. -/
def dictLookup {α : Type} (l : List (String × α)) (k : String) : Option α :=
  match l with
  | [] => none
  | (k', v') :: rest => if k' = k then some v' else dictLookup rest k

/-! ## Tokenizer (HDLTokenizer.tokenize, src/src/hdl_parser.py lines 32-78) -/

def isWordChar (c : Char) : Bool :=
  ('a' ≤ c && c ≤ 'z') || ('A' ≤ c && c ≤ 'Z') || ('0' ≤ c && c ≤ '9') || c = '_'

def isIdentStart (c : Char) : Bool :=
  ('a' ≤ c && c ≤ 'z') || ('A' ≤ c && c ≤ 'Z') || c = '_'

def isSpaceChar (c : Char) : Bool :=
  c = ' ' || c = '\t' || c = '\n' || c = '\r' || c = '\x0b' || c = '\x0c'

def boundaryBefore : Option Char → Bool
  | none => true
  | some c => !isWordChar c

def boundaryAfterOk : List Char → Bool
  | [] => true
  | c :: _ => !isWordChar c

/-- A keyword pattern with word boundaries on both sides, as in the regex
patterns of TOKEN_PATTERNS. `prev` is the character just before the current
scanning position. -/
def matchKw (kw : List Char) (prev : Option Char) (cs : List Char) : Bool :=
  boundaryBefore prev && kw.isPrefixOf cs && boundaryAfterOk (cs.drop kw.length)

/-- One attempt of the alternation regex at the current position: the first
pattern (in TOKEN_PATTERNS order) that matches wins. Returns the token kind,
the matched lexeme, and the remaining characters; `none` when no pattern
matches at this position. The NEWLINE pattern is listed after WHITESPACE in
the source and therefore can never match. -/
def matchToken (prev : Option Char) (cs : List Char) :
    Option (String × List Char × List Char) :=
  match cs with
  | [] => none
  | c :: rest =>
    if matchKw (['C', 'H', 'I', 'P']) prev cs then
      some (("CHIP"), ['C', 'H', 'I', 'P'], cs.drop 4)
    else if matchKw (['I', 'N']) prev cs then
      some (("IN"), ['I', 'N'], cs.drop 2)
    else if matchKw (['O', 'U', 'T']) prev cs then
      some (("OUT"), ['O', 'U', 'T'], cs.drop 3)
    else if matchKw (['P', 'A', 'R', 'T', 'S']) prev cs then
      some (("PARTS"), ['P', 'A', 'R', 'T', 'S'], cs.drop 5)
    else if isIdentStart c then
      some (("IDENTIFIER"), c :: rest.takeWhile isWordChar, rest.dropWhile isWordChar)
    else if c = '\x7b' then some (("LBRACE"), [c], rest)
    else if c = '\x7d' then some (("RBRACE"), [c], rest)
    else if c = '(' then some (("LPAREN"), [c], rest)
    else if c = ')' then some (("RPAREN"), [c], rest)
    else if c = ';' then some (("SEMICOLON"), [c], rest)
    else if c = ',' then some (("COMMA"), [c], rest)
    else if c = '=' then some (("EQUALS"), [c], rest)
    else if c = ':' then some (("COLON"), [c], rest)
    else if c = '/' && rest.head? = some '/' then
      some (("COMMENT"), c :: '/' :: rest.tail.takeWhile (fun x => x ≠ '\n'),
            rest.tail.dropWhile (fun x => x ≠ '\n'))
    else if isSpaceChar c then
      some (("WHITESPACE"), c :: rest.takeWhile isSpaceChar, rest.dropWhile isSpaceChar)
    else none

/-- Scanning loop of `re.finditer`: at each position, emit the first matching
pattern and continue after it; a position where no pattern matches is skipped
silently. WHITESPACE, COMMENT and NEWLINE tokens are dropped, as in
`tokenize`. The fuel is an upper bound on the number of scanning steps; every
step consumes at least one character, so `cs.length` steps always suffice. -/
def scanTokens : Nat → Option Char → List Char → List (String × String)
  | 0, _, _ => []
  | _ + 1, _, [] => []
  | fuel + 1, prev, c :: rest =>
    match matchToken prev (c :: rest) with
    | none => scanTokens fuel (some c) rest
    | some (kind, lex, rest') =>
      if kind = "WHITESPACE" || kind = "COMMENT" || kind = "NEWLINE" then
        scanTokens fuel lex.getLast? rest'
      else
        (kind, lex.asString) :: scanTokens fuel lex.getLast? rest'

def tokenizeChars (cs : List Char) : List (String × String) :=
  scanTokens cs.length none cs

/-- HDLTokenizer.tokenize: HDL text to the list of (kind, lexeme) tokens. -/
def tokenize (text : String) : List (String × String) :=
  tokenizeChars text.data

/-! ## Parser (HDLParser, src/src/hdl_parser.py lines 81-289) -/

abbrev Token := String × String

structure PartInstance where
  chip_type : String
  connections : List (String × String)
deriving DecidableEq

structure ChipDefinition where
  name : String
  inputs : List String
  outputs : List String
  parts : List PartInstance
deriving DecidableEq

/-- HDLParser._expect_token: consume one token of the expected kind or fail. -/
def expectToken (expected : String) (toks : List Token) :
    Except String (String × List Token) :=
  match toks with
  | [] => .error (("Expected ") ++ expected ++ ", got None")
  | t :: rest =>
    if t.1 = expected then .ok (t.2, rest)
    else .error (("Expected ") ++ expected ++ ", got " ++ t.1)

/-- The comma loop shared by _parse_in_section and _parse_out_section: while
the current token is a comma, consume it and expect one more identifier. -/
def parseMoreIdents : List Token → List String →
    Except String (List String × List Token)
  | [], acc => .ok (acc, [])
  | t :: rest, acc =>
    if t.1 = "COMMA" then
      match rest with
      | t1 :: rest1 =>
        if t1.1 = "IDENTIFIER" then parseMoreIdents rest1 (acc ++ [t1.2])
        else .error (("Expected IDENTIFIER, got ") ++ t1.1)
      | [] => .error ("Expected IDENTIFIER, got None")
    else .ok (acc, t :: rest)

def parse_in_section (toks : List Token) :
    Except String (List String × List Token) := do
  let (_, t1) ← expectToken ("IN") toks
  let (first, t2) ← expectToken ("IDENTIFIER") t1
  let (ids, t3) ← parseMoreIdents t2 [first]
  let (_, t4) ← expectToken ("SEMICOLON") t3
  .ok (ids, t4)

def parse_out_section (toks : List Token) :
    Except String (List String × List Token) := do
  let (_, t1) ← expectToken ("OUT") toks
  let (first, t2) ← expectToken ("IDENTIFIER") t1
  let (ids, t3) ← parseMoreIdents t2 [first]
  let (_, t4) ← expectToken ("SEMICOLON") t3
  .ok (ids, t4)

/-- The comma loop of _parse_part_instance; later bindings for the same pin
overwrite earlier ones, as Python dict assignment does. -/
def parseMoreConns : List Token → List (String × String) →
    Except String (List (String × String) × List Token)
  | [], acc => .ok (acc, [])
  | t :: rest, acc =>
    if t.1 = "COMMA" then
      match rest with
      | t1 :: rest1 =>
        if t1.1 = "IDENTIFIER" then
          match rest1 with
          | t2 :: rest2 =>
            if t2.1 = "EQUALS" then
              match rest2 with
              | t3 :: rest3 =>
                if t3.1 = "IDENTIFIER" then parseMoreConns rest3 (dictInsert acc t1.2 t3.2)
                else .error (("Expected IDENTIFIER, got ") ++ t3.1)
              | [] => .error ("Expected IDENTIFIER, got None")
            else .error (("Expected EQUALS, got ") ++ t2.1)
          | [] => .error ("Expected EQUALS, got None")
        else .error (("Expected IDENTIFIER, got ") ++ t1.1)
      | [] => .error ("Expected IDENTIFIER, got None")
    else .ok (acc, t :: rest)

def parse_part_instance (toks : List Token) :
    Except String (PartInstance × List Token) := do
  let (ct, t1) ← expectToken ("IDENTIFIER") toks
  let (_, t2) ← expectToken ("LPAREN") t1
  let (pin, t3) ← expectToken ("IDENTIFIER") t2
  let (_, t4) ← expectToken ("EQUALS") t3
  let (sig, t5) ← expectToken ("IDENTIFIER") t4
  let (conns, t6) ← parseMoreConns t5 (dictInsert [] pin sig)
  let (_, t7) ← expectToken ("RPAREN") t6
  let (_, t8) ← expectToken ("SEMICOLON") t7
  .ok (⟨ct, conns⟩, t8)

/-- The while loop of _parse_parts_section. Fuel bounds the number of
iterations; each successful iteration consumes at least one token, so
`toks.length + 1` is always enough and the fuel branch is unreachable. -/
def parsePartsLoop : Nat → List Token → List PartInstance →
    Except String (List PartInstance × List Token)
  | 0, _, _ => .error ("parts loop fuel exhausted")
  | fuel + 1, toks, acc =>
    match toks with
    | [] => .ok (acc, [])
    | t :: _ =>
      if t.1 = "RBRACE" then .ok (acc, toks)
      else do
        let (p, rest) ← parse_part_instance toks
        parsePartsLoop fuel rest (acc ++ [p])

def parse_parts_section (toks : List Token) :
    Except String (List PartInstance × List Token) := do
  let (_, t1) ← expectToken ("PARTS") toks
  let (_, t2) ← expectToken ("COLON") t1
  parsePartsLoop (t2.length + 1) t2 []

/-- HDLParser._parse_chip. -/
def parse_chip (toks : List Token) : Except String (ChipDefinition × List Token) := do
  let (_, t1) ← expectToken ("CHIP") toks
  let (nm, t2) ← expectToken ("IDENTIFIER") t1
  let (_, t3) ← expectToken ("LBRACE") t2
  let (ins, t4) ← parse_in_section t3
  let (outs, t5) ← parse_out_section t4
  let (ps, t6) ← parse_parts_section t5
  let (_, t7) ← expectToken ("RBRACE") t6
  .ok (⟨nm, ins, outs, ps⟩, t7)

/-- HDLParser.parse_text: tokenize then parse one chip definition. Tokens
after the closing brace are ignored, as in the source. -/
def parse_text (text : String) : Except String ChipDefinition :=
  (parse_chip (tokenize text)).map Prod.fst

/-! ## Built-in gate functions (class BuiltInGates, src/src/chip_simulator.py
lines 24-77). The Python functions are total over all ints: they test their
arguments for equality with 1 and never range-check them. -/

namespace BuiltInGates

def nand (a b : Int) : Int := if a = 1 ∧ b = 1 then 0 else 1

def not_gate (input_val : Int) : Int := if input_val = 1 then 0 else 1

def and_gate (a b : Int) : Int := if a = 1 ∧ b = 1 then 1 else 0

def or_gate (a b : Int) : Int := if a = 1 ∨ b = 1 then 1 else 0

end BuiltInGates

/-! ## Chip simulator (src/src/chip_simulator.py lines 80-281) -/

/-- Exceptions the simulator can raise. `keyError` is Python's KeyError on a
dict subscript; `fileNotFound` and `parseError` arise inside
load_chip_definition; `depthLimit` is the artificial fuel bound standing in
for Python's unbounded recursion. -/
inductive SimErr where
  | keyError (key : String)
  | fileNotFound (chip_name : String)
  | parseError (msg : String)
  | depthLimit
deriving DecidableEq

/-- Signal table of one chip instance: value `none` is Python None (unset). -/
abbrev SignalTable := List (String × Option Int)

/-- Subscripting `self.signals[k]`: raises KeyError when the key is absent. -/
def getSignal (s : SignalTable) (k : String) : Except SimErr (Option Int) :=
  match dictLookup s k with
  | none => .error (.keyError k)
  | some v => .ok v

/-- Subscripting `connections[pin]`: raises KeyError when the pin is absent. -/
def getConn (conns : List (String × String)) (pin : String) : Except SimErr String :=
  match dictLookup conns pin with
  | none => .error (.keyError pin)
  | some v => .ok v

/-- Keys of ChipSimulator.built_in_chips, in insertion order. -/
def builtinNames : List String := ["Nand", "Not", "And", "Or"]

mutual
/-- A sub-chip entry of ChipInstance.sub_chips: either a builtin record or a
custom record carrying a recursively built instance. -/
inductive SubEntry where
  | builtin (chip_type : String) (connections : List (String × String))
  | custom (chip_type : String) (connections : List (String × String)) (inst : ChipInst)

/-- ChipInstance: its definition, its signal table and its sub-chips. -/
inductive ChipInst where
  | mk (chip_def : ChipDefinition) (signals : SignalTable) (sub_chips : List SubEntry)
end

def ChipInst.chip_def : ChipInst → ChipDefinition
  | .mk d _ _ => d

def ChipInst.signals : ChipInst → SignalTable
  | .mk _ s _ => s

def ChipInst.sub_chips : ChipInst → List SubEntry
  | .mk _ _ sc => sc

def SubEntry.chipType : SubEntry → String
  | .builtin ct _ => ct
  | .custom ct _ _ => ct

/-- ChipInstance.__init__ signal initialisation: every input pin then every
output pin is set to None (duplicate names collapse, as dict keys do). -/
def initSignals (d : ChipDefinition) : SignalTable :=
  (d.inputs ++ d.outputs).foldl (fun s p => dictInsert s p none) []

/-- ChipInstance.set_inputs on the signal table: pins not among the declared
inputs are silently ignored. Values are optional because
_simulate_custom_chip passes possibly-None signal values through it. -/
def setInputsTable (d : ChipDefinition) (s : SignalTable)
    (input_values : List (String × Option Int)) : SignalTable :=
  input_values.foldl
    (fun s pv => if d.inputs.contains pv.1 then dictInsert s pv.1 pv.2 else s) s

def ChipInst.set_inputs : ChipInst → List (String × Option Int) → ChipInst
  | .mk d s sc, ins => .mk d (setInputsTable d s ins) sc

/-- ChipInstance._simulate_builtin_chip: reads the bound input signals, and
only when all of them are set applies the gate function and writes the bound
output signal; otherwise it returns with the table unchanged. A chip type
outside the if/elif chain falls through as a no-op. -/
def simulateBuiltinStep (chip_type : String) (conns : List (String × String))
    (s : SignalTable) : Except SimErr SignalTable :=
  if chip_type = "Nand" then do
    let aSig ← getConn conns ("a")
    let aVal ← getSignal s aSig
    let bSig ← getConn conns ("b")
    let bVal ← getSignal s bSig
    match aVal, bVal with
    | some a, some b => do
      let outSig ← getConn conns ("out")
      .ok (dictInsert s outSig (some (BuiltInGates.nand a b)))
    | _, _ => .ok s
  else if chip_type = "Not" then do
    let inSig ← getConn conns ("in")
    let inVal ← getSignal s inSig
    match inVal with
    | some v => do
      let outSig ← getConn conns ("out")
      .ok (dictInsert s outSig (some (BuiltInGates.not_gate v)))
    | none => .ok s
  else if chip_type = "And" then do
    let aSig ← getConn conns ("a")
    let aVal ← getSignal s aSig
    let bSig ← getConn conns ("b")
    let bVal ← getSignal s bSig
    match aVal, bVal with
    | some a, some b => do
      let outSig ← getConn conns ("out")
      .ok (dictInsert s outSig (some (BuiltInGates.and_gate a b)))
    | _, _ => .ok s
  else if chip_type = "Or" then do
    let aSig ← getConn conns ("a")
    let aVal ← getSignal s aSig
    let bSig ← getConn conns ("b")
    let bVal ← getSignal s bSig
    match aVal, bVal with
    | some a, some b => do
      let outSig ← getConn conns ("out")
      .ok (dictInsert s outSig (some (BuiltInGates.or_gate a b)))
    | _, _ => .ok s
  else .ok s

/-- The sub_inputs construction of _simulate_custom_chip: connection entries
whose pin is a declared input of the sub-chip are read from the parent table
(KeyError if the bound signal is not a key there). -/
def buildSubInputs (subInputs : List String) (conns : List (String × String))
    (s : SignalTable) : Except SimErr (List (String × Option Int)) :=
  conns.foldlM
    (fun acc ps =>
      if subInputs.contains ps.1 then do
        let v ← getSignal s ps.2
        pure (dictInsert acc ps.1 v)
      else pure acc) []

/-- The copy-back loop of _simulate_custom_chip: connection entries whose pin
is a declared output of the sub-chip write the sub-result into the parent
table under the bound signal name. -/
def copyOutputsBack (subOutputs : List String) (conns : List (String × String))
    (subOuts : List (String × Option Int)) (s : SignalTable) :
    Except SimErr SignalTable :=
  conns.foldlM
    (fun s ps =>
      if subOutputs.contains ps.1 then
        match dictLookup subOuts ps.1 with
        | none => .error (.keyError ps.1)
        | some v => pure (dictInsert s ps.2 v)
      else pure s) s

/-- The output collection at the end of ChipInstance.simulate. -/
def collectOutputs (outs : List String) (s : SignalTable) :
    Except SimErr (List (String × Option Int)) :=
  outs.foldlM
    (fun acc p =>
      match dictLookup s p with
      | none => .error (.keyError p)
      | some v => pure (dictInsert acc p v)) []

/-- The clearing loop at the start of ChipInstance.simulate: every signal not
among the declared inputs is reset to None. -/
def clearNonInputs (d : ChipDefinition) (s : SignalTable) : SignalTable :=
  s.map (fun nv => if d.inputs.contains nv.1 then nv else (nv.1, none))

/-- The part loop of ChipInstance.simulate, threading the signal table left
to right through the sub-chip entries in declaration order. `evalSub` is the
recursive simulation of a custom sub-instance (ChipInstance.simulate one
nesting level down); it is a parameter so that the loop is plain structural
recursion over the entry list. -/
def runParts (evalSub : ChipInst → Except SimErr (List (String × Option Int))) :
    List SubEntry → SignalTable → Except SimErr SignalTable
  | [], s => .ok s
  | .builtin ct conns :: rest, s => do
    let s' ← simulateBuiltinStep ct conns s
    runParts evalSub rest s'
  | .custom _ conns inst :: rest, s => do
    let subIns ← buildSubInputs inst.chip_def.inputs conns s
    let subOuts ← evalSub (inst.set_inputs subIns)
    let s' ← copyOutputsBack inst.chip_def.outputs conns subOuts s
    runParts evalSub rest s'

/-- One level of ChipInstance.simulate: clear non-input signals, walk the
sub-chips in declaration order, then collect the declared outputs. -/
def simulateBody (evalSub : ChipInst → Except SimErr (List (String × Option Int)))
    (inst : ChipInst) : Except SimErr (List (String × Option Int)) := do
  let final ← runParts evalSub inst.sub_chips (clearNonInputs inst.chip_def inst.signals)
  collectOutputs inst.chip_def.outputs final

/-- ChipInstance.simulate, with fuel bounding the depth of recursion into
custom sub-chips (the Python recursion is unbounded; any fuel larger than
the instance tree's depth gives the same result). -/
def simulate (fuel : Nat) : ChipInst → Except SimErr (List (String × Option Int)) :=
  Nat.rec (motive := fun _ => ChipInst → Except SimErr (List (String × Option Int)))
    (fun _ => .error .depthLimit) (fun _ ih => simulateBody ih) fuel

/-- Definition cache of ChipSimulator (chip_cache). -/
abbrev Cache := List (String × ChipDefinition)

/-- ChipSimulator.load_chip_definition: consult the cache, otherwise read the
chip's HDL source through `src` (none models a missing file), parse it, and
publish the definition in the cache. -/
def loadChipDefinition (src : String → Option String) (cache : Cache)
    (chip_name : String) : Except SimErr (ChipDefinition × Cache) :=
  match dictLookup cache chip_name with
  | some d => .ok (d, cache)
  | none =>
    match src chip_name with
    | none => .error (.fileNotFound chip_name)
    | some text =>
      match parse_text text with
      | .error e => .error (.parseError e)
      | .ok d => .ok (d, dictInsert cache chip_name d)

/-- ChipInstance._instantiate_parts: walk the parts in order; builtins are
recorded as-is, custom chips are loaded (threading the shared cache) and
recursively instantiated. `mkSub` is the recursive construction of a custom
sub-instance (ChipInstance.__init__ one nesting level down). -/
def instantiateParts (mkSub : Cache → ChipDefinition → Except SimErr (ChipInst × Cache))
    (src : String → Option String) : Cache → List PartInstance →
    Except SimErr (List SubEntry × Cache)
  | cache, [] => .ok ([], cache)
  | cache, p :: rest =>
    if builtinNames.contains p.chip_type then do
      let (subs, cache') ← instantiateParts mkSub src cache rest
      .ok (.builtin p.chip_type p.connections :: subs, cache')
    else do
      let (subDef, c1) ← loadChipDefinition src cache p.chip_type
      let (subInst, c2) ← mkSub c1 subDef
      let (subs, c3) ← instantiateParts mkSub src c2 rest
      .ok (.custom p.chip_type p.connections subInst :: subs, c3)

/-- One level of ChipInstance.__init__: initialise the signal table and
instantiate the parts. -/
def mkChipBody (mkSub : Cache → ChipDefinition → Except SimErr (ChipInst × Cache))
    (src : String → Option String) (cache : Cache) (d : ChipDefinition) :
    Except SimErr (ChipInst × Cache) := do
  let (subs, cache') ← instantiateParts mkSub src cache d.parts
  .ok (.mk d (initSignals d) subs, cache')

/-- ChipInstance.__init__ with fuel bounding the nesting depth of custom
chips (unbounded recursion in the Python source). -/
def mkChipInstance (fuel : Nat) (src : String → Option String) :
    Cache → ChipDefinition → Except SimErr (ChipInst × Cache) :=
  Nat.rec (motive := fun _ => Cache → ChipDefinition → Except SimErr (ChipInst × Cache))
    (fun _ _ => .error .depthLimit) (fun _ ih => mkChipBody ih src) fuel

/-- ChipSimulator.simulate_chip: load the definition, build a fresh instance,
set the caller's integer inputs, and simulate. Returns the outputs together
with the updated definition cache. -/
def simulateChip (fuel : Nat) (src : String → Option String) (cache : Cache)
    (chip_name : String) (input_values : List (String × Int)) :
    Except SimErr (List (String × Option Int) × Cache) := do
  let (d, c1) ← loadChipDefinition src cache chip_name
  let (inst, c2) ← mkChipInstance fuel src c1 d
  let outs ← simulate fuel (inst.set_inputs (input_values.map (fun pv => (pv.1, some pv.2))))
  .ok (outs, c2)

/-! ## Validated gate evaluation (src/src/gates/builtin_gates.py lines 16-229) -/

namespace Gates

/-- NandGateLogic.compute: missing pins default to 0 via dict.get. -/
def nandCompute (inputs : List (String × Int)) : List (String × Int) :=
  let a := (dictLookup inputs ("a")).getD 0
  let b := (dictLookup inputs ("b")).getD 0
  [("out", if a = 1 ∧ b = 1 then 0 else 1)]

/-- NotGateLogic.compute. -/
def notCompute (inputs : List (String × Int)) : List (String × Int) :=
  let v := (dictLookup inputs ("in")).getD 0
  [("out", if v = 1 then 0 else 1)]

/-- AndGateLogic.compute. -/
def andCompute (inputs : List (String × Int)) : List (String × Int) :=
  let a := (dictLookup inputs ("a")).getD 0
  let b := (dictLookup inputs ("b")).getD 0
  [("out", if a = 1 ∧ b = 1 then 1 else 0)]

/-- OrGateLogic.compute. -/
def orCompute (inputs : List (String × Int)) : List (String × Int) :=
  let a := (dictLookup inputs ("a")).getD 0
  let b := (dictLookup inputs ("b")).getD 0
  [("out", if a = 1 ∨ b = 1 then 1 else 0)]

/-- A BuiltinGate: name, declared pins and its logic strategy. -/
structure BuiltinGate where
  name : String
  inputs : List String
  outputs : List String
  logic : List (String × Int) → List (String × Int)

/-- BuiltinGate._validate_inputs: first missing required input, then first
provided input pin whose value is not 0 or 1, raise ValueError. -/
def validateInputs (g : BuiltinGate) (input_values : List (String × Int)) :
    Except String Unit :=
  match g.inputs.find? (fun p => (dictLookup input_values p).isNone) with
  | some p => .error (("Missing required input: ") ++ p)
  | none =>
    match input_values.find? (fun pv => g.inputs.contains pv.1 && !(pv.2 == 0 || pv.2 == 1)) with
    | some pv => .error (("Invalid input value for ") ++ pv.1 ++ ": " ++ toString pv.2)
    | none => .ok ()

/-- BuiltinGate._validate_outputs. -/
def validateOutputs (g : BuiltinGate) (outputs : List (String × Int)) :
    Except String Unit :=
  match g.outputs.find? (fun p => (dictLookup outputs p).isNone) with
  | some p => .error (("Gate logic failed to provide output: ") ++ p)
  | none =>
    match outputs.find? (fun pv => !(pv.2 == 0 || pv.2 == 1)) with
    | some pv => .error (("Invalid output value for ") ++ pv.1 ++ ": " ++ toString pv.2)
    | none => .ok ()

/-- BuiltinGate.evaluate: validate inputs, compute via the logic strategy,
validate outputs. -/
def evaluate (g : BuiltinGate) (input_values : List (String × Int)) :
    Except String (List (String × Int)) := do
  validateInputs g input_values
  let outputs := g.logic input_values
  validateOutputs g outputs
  .ok outputs

/-- The Nand gate as built by GateFactory. -/
def nandGate : BuiltinGate := ⟨"Nand", ["a", "b"], ["out"], nandCompute⟩

/-- The Not gate as built by GateFactory. -/
def notGate : BuiltinGate := ⟨"Not", ["in"], ["out"], notCompute⟩

/-- The And gate as built by GateFactory. -/
def andGate : BuiltinGate := ⟨"And", ["a", "b"], ["out"], andCompute⟩

/-- The Or gate as built by GateFactory. -/
def orGate : BuiltinGate := ⟨"Or", ["a", "b"], ["out"], orCompute⟩

end Gates

/-- The input pins a builtin part reads in _simulate_builtin_chip. -/
def builtinInputPins (ct : String) : List String :=
  if ct = "Nand" then ["a", "b"]
  else if ct = "Not" then ["in"]
  else if ct = "And" then ["a", "b"]
  else if ct = "Or" then ["a", "b"]
  else []

/-- A string matching the IDENTIFIER token pattern: one identifier-start
character followed by word characters. -/
def isIdentStr (s : String) : Bool :=
  match s.data with
  | [] => false
  | c :: r => isIdentStart c && r.all isWordChar

/-! ## Cacheless specification of chip loading and instantiation, used to
prove that results do not depend on the definition cache. -/

/-- Loading a chip definition without the cache: read and parse the source.
ChipSimulator.load_chip_definition memoizes exactly this function. -/
def loadPure (src : String → Option String) (chip_name : String) :
    Except SimErr ChipDefinition :=
  match src chip_name with
  | none => .error (.fileNotFound chip_name)
  | some text =>
    match parse_text text with
    | .error e => .error (.parseError e)
    | .ok d => .ok d

/-- A cache is coherent when every entry equals what loading from source
would produce; the empty cache of a fresh ChipSimulator is coherent, and
load_chip_definition preserves coherence. -/
def CacheCoherent (src : String → Option String) (cache : Cache) : Prop :=
  ∀ n d, dictLookup cache n = some d → loadPure src n = .ok d

/-- Cacheless counterpart of instantiateParts. -/
def instPartsP (mkSub : ChipDefinition → Except SimErr ChipInst)
    (src : String → Option String) : List PartInstance →
    Except SimErr (List SubEntry)
  | [] => .ok []
  | p :: rest =>
    if builtinNames.contains p.chip_type then do
      let subs ← instPartsP mkSub src rest
      .ok (.builtin p.chip_type p.connections :: subs)
    else do
      let subDef ← loadPure src p.chip_type
      let subInst ← mkSub subDef
      let subs ← instPartsP mkSub src rest
      .ok (.custom p.chip_type p.connections subInst :: subs)

/-- Cacheless counterpart of mkChipBody. -/
def mkChipBodyP (mkSub : ChipDefinition → Except SimErr ChipInst)
    (src : String → Option String) (d : ChipDefinition) :
    Except SimErr ChipInst := do
  let subs ← instPartsP mkSub src d.parts
  .ok (.mk d (initSignals d) subs)

/-- Cacheless counterpart of mkChipInstance. -/
def mkInstP (fuel : Nat) (src : String → Option String) :
    ChipDefinition → Except SimErr ChipInst :=
  Nat.rec (motive := fun _ => ChipDefinition → Except SimErr ChipInst)
    (fun _ => .error .depthLimit) (fun _ ih => mkChipBodyP ih src) fuel

/-- Cacheless counterpart of simulateChip. -/
def simulateChipP (fuel : Nat) (src : String → Option String)
    (chip_name : String) (input_values : List (String × Int)) :
    Except SimErr (List (String × Option Int)) := do
  let d ← loadPure src chip_name
  let inst ← mkInstP fuel src d
  simulate fuel (inst.set_inputs (input_values.map (fun pv => (pv.1, some pv.2))))

/-! ## Concrete fixtures used across several claims -/

/-- The And-via-Nand+Not chip source from the specification scenario. -/
def andHDL : String :=
  "CHIP And \x7b IN a,b; OUT out; PARTS: Nand(a=a,b=b,out=n); Not(in=n,out=out); \x7d"

/-- A chip-source environment containing only And.hdl. -/
def andSrc : String → Option String :=
  fun n => if n = "And" then some andHDL else none

/-- The definition that parsing `andHDL` produces. -/
def andDef : ChipDefinition :=
  ⟨"And", ["a", "b"], ["out"],
   [⟨"Nand", [("a", "a"), ("b", "b"), ("out", "n")]⟩,
    ⟨"Not", [("in", "n"), ("out", "out")]⟩]⟩

/-- A chip with one input, one output and an empty PARTS section, so its
output is never written during simulation. -/
def badHDL : String := "CHIP Bad \x7b IN a; OUT out; PARTS: \x7d"

/-- A chip-source environment containing only Bad.hdl. -/
def badSrc : String → Option String :=
  fun n => if n = "Bad" then some badHDL else none

/-- The definition that parsing `badHDL` produces. -/
def badDef : ChipDefinition := ⟨"Bad", ["a"], ["out"], []⟩

/-- A chip source repeating the pin name a inside IN and again in OUT. -/
def dupHDL : String := "CHIP X \x7b IN a, a; OUT a; PARTS: \x7d"

/-! ## Dictionary lemmas -/

theorem dictLookup_dictInsert_self {α : Type} (l : List (String × α)) (k : String) (v : α) :
    dictLookup (dictInsert l k v) k = some v := by
  induction l with
  | nil => simp [dictInsert, dictLookup]
  | cons hd tl ih =>
    by_cases h : hd.1 = k
    · simp [dictInsert, dictLookup, h]
    · simp [dictInsert, dictLookup, h, ih]

theorem dictLookup_dictInsert_ne {α : Type} (l : List (String × α)) (k k' : String) (v : α)
    (h : k' ≠ k) : dictLookup (dictInsert l k v) k' = dictLookup l k' := by
  induction l with
  | nil => simp [dictInsert, dictLookup, Ne.symm h]
  | cons hd tl ih =>
    by_cases hk : hd.1 = k
    · subst hk
      simp [dictInsert, dictLookup, Ne.symm h]
    · simp only [dictInsert, if_neg hk]
      by_cases hk' : hd.1 = k'
      · simp [dictLookup, hk']
      · simp [dictLookup, hk', ih]

theorem dictLookup_dictInsert_isSome {α : Type} (l : List (String × α)) (k k' : String) (v : α)
    (h : (dictLookup l k').isSome) : (dictLookup (dictInsert l k v) k').isSome := by
  by_cases hk : k' = k
  · subst hk; simp [dictLookup_dictInsert_self]
  · rw [dictLookup_dictInsert_ne l k k' v hk]; exact h

/-! ## Claim C7 -/

/-- C7: parsing the HDL text of the And chip yields exactly the two-part
definition, and simulating it on every input pair (a,b) in 0/1 range yields
out = Not(Nand(a,b)); in particular inputs a=1,b=1 give out=1 and inputs
a=0,b=1 give out=0. -/
theorem and_chip_composition :
    parse_text andHDL = .ok andDef ∧
    (simulateChip 10 andSrc [] ("And") [("a", 0), ("b", 0)]).map Prod.fst
      = .ok [("out", some (BuiltInGates.not_gate (BuiltInGates.nand 0 0)))] ∧
    (simulateChip 10 andSrc [] ("And") [("a", 0), ("b", 1)]).map Prod.fst
      = .ok [("out", some (BuiltInGates.not_gate (BuiltInGates.nand 0 1)))] ∧
    (simulateChip 10 andSrc [] ("And") [("a", 1), ("b", 0)]).map Prod.fst
      = .ok [("out", some (BuiltInGates.not_gate (BuiltInGates.nand 1 0)))] ∧
    (simulateChip 10 andSrc [] ("And") [("a", 1), ("b", 1)]).map Prod.fst
      = .ok [("out", some (BuiltInGates.not_gate (BuiltInGates.nand 1 1)))] ∧
    (simulateChip 10 andSrc [] ("And") [("a", 1), ("b", 1)]).map Prod.fst
      = .ok [("out", some 1)] ∧
    (simulateChip 10 andSrc [] ("And") [("a", 0), ("b", 1)]).map Prod.fst
      = .ok [("out", some 0)] :=
  ⟨rfl, rfl, rfl, rfl, rfl, rfl, rfl⟩

/-! ## Claim C1 -/

/-- C1 counterexample: an Or part whose bound input signal p is unset (None)
evaluates without signalling any error: the step returns successfully and
skips the part, leaving the table unchanged. -/
theorem builtin_unset_input_no_error :
    simulateBuiltinStep ("Or") [("a", "p"), ("b", "q"), ("out", "r")]
      [("p", none), ("q", some 0), ("r", none)]
      = .ok [("p", none), ("q", some 0), ("r", none)] := rfl

/-- C1 amended: a builtin part never range-checks its operands. With all
bound inputs set, any integer values (0/1 or not) are passed straight to the
gate function and the result is written; with an unset operand the part is
silently skipped, the bound output keeping its prior value. -/
theorem builtin_step_no_range_check (v w : Int) :
    simulateBuiltinStep ("Nand") [("a", "x"), ("b", "y"), ("out", "z")]
      [("x", some v), ("y", some w), ("z", none)]
      = .ok [("x", some v), ("y", some w), ("z", some (BuiltInGates.nand v w))] ∧
    simulateBuiltinStep ("Not") [("in", "i"), ("out", "o")]
      [("i", none), ("o", some v)]
      = .ok [("i", none), ("o", some v)] :=
  ⟨rfl, rfl⟩

/-! ## Claim C2 counterexample -/

/-- C2 counterexample: simulating a chip whose output pin is never written
returns a value rather than raising: the result is ok with out mapped to
None. -/
theorem unwritten_output_returns_value :
    simulateChip 10 badSrc [] ("Bad") [("a", 0)]
      = .ok ([("out", none)], [("Bad", badDef)]) := rfl

/-! ## Claim C3 counterexample -/

/-- C3 counterexample: simulate("And", with b missing) does not raise any
input-validation error naming b; the unset b silently skips the Nand part
and the run fails later with a KeyError for the internal wire n. -/
theorem missing_input_gives_key_error :
    simulateChip 10 andSrc [] ("And") [("a", 1)] = .error (.keyError ("n")) := rfl

/-! ## Claim C6 counterexample -/

/-- C6 counterexample: the character @ matches no token pattern, yet
tokenize returns a token list and scanning continues past it. -/
theorem tokenize_skips_unrecognized_char :
    tokenize ("CHIP @ x") = [("CHIP", "CHIP"), ("IDENTIFIER", "x")] := rfl

/-! ## Claim C5 -/

/-- C5 counterexample: the simulator's builtin gate functions accept
arguments outside 0/1 and map them to an output instead of rejecting them:
nand(2,2) evaluates to 1. -/
theorem nand_accepts_out_of_range : BuiltInGates.nand 2 2 = 1 := rfl

/-- C5 amended: all four builtin gates match their defining truth tables on
the full 0/1 domain, both as the simulator's plain functions (BuiltInGates)
and through the validated BuiltinGate.evaluate path; evaluate rejects any
non-0/1 input value with an error, while the plain BuiltInGates functions
perform no such check (see the counterexample). -/
theorem gate_truth_tables_and_validation (v : Int) (h0 : v ≠ 0) (h1 : v ≠ 1) :
    (BuiltInGates.nand 0 0 = 1 ∧ BuiltInGates.nand 0 1 = 1 ∧
     BuiltInGates.nand 1 0 = 1 ∧ BuiltInGates.nand 1 1 = 0 ∧
     BuiltInGates.not_gate 0 = 1 ∧ BuiltInGates.not_gate 1 = 0 ∧
     BuiltInGates.and_gate 0 0 = 0 ∧ BuiltInGates.and_gate 0 1 = 0 ∧
     BuiltInGates.and_gate 1 0 = 0 ∧ BuiltInGates.and_gate 1 1 = 1 ∧
     BuiltInGates.or_gate 0 0 = 0 ∧ BuiltInGates.or_gate 0 1 = 1 ∧
     BuiltInGates.or_gate 1 0 = 1 ∧ BuiltInGates.or_gate 1 1 = 1) ∧
    (Gates.evaluate Gates.nandGate [("a", 0), ("b", 0)] = .ok [("out", 1)] ∧
     Gates.evaluate Gates.nandGate [("a", 0), ("b", 1)] = .ok [("out", 1)] ∧
     Gates.evaluate Gates.nandGate [("a", 1), ("b", 0)] = .ok [("out", 1)] ∧
     Gates.evaluate Gates.nandGate [("a", 1), ("b", 1)] = .ok [("out", 0)] ∧
     Gates.evaluate Gates.notGate [("in", 0)] = .ok [("out", 1)] ∧
     Gates.evaluate Gates.notGate [("in", 1)] = .ok [("out", 0)] ∧
     Gates.evaluate Gates.andGate [("a", 0), ("b", 0)] = .ok [("out", 0)] ∧
     Gates.evaluate Gates.andGate [("a", 0), ("b", 1)] = .ok [("out", 0)] ∧
     Gates.evaluate Gates.andGate [("a", 1), ("b", 0)] = .ok [("out", 0)] ∧
     Gates.evaluate Gates.andGate [("a", 1), ("b", 1)] = .ok [("out", 1)] ∧
     Gates.evaluate Gates.orGate [("a", 0), ("b", 0)] = .ok [("out", 0)] ∧
     Gates.evaluate Gates.orGate [("a", 0), ("b", 1)] = .ok [("out", 1)] ∧
     Gates.evaluate Gates.orGate [("a", 1), ("b", 0)] = .ok [("out", 1)] ∧
     Gates.evaluate Gates.orGate [("a", 1), ("b", 1)] = .ok [("out", 1)]) ∧
    (∃ e, Gates.evaluate Gates.nandGate [("a", v), ("b", 0)] = .error e) ∧
    (∃ e, Gates.evaluate Gates.notGate [("in", v)] = .error e) ∧
    (∃ e, Gates.evaluate Gates.andGate [("a", v), ("b", 0)] = .error e) ∧
    (∃ e, Gates.evaluate Gates.orGate [("a", v), ("b", 0)] = .error e) := by
  have hb : (v == 0 || v == 1) = false := by simp [h0, h1]
  refine ⟨by decide,
    ⟨rfl, rfl, rfl, rfl, rfl, rfl, rfl, rfl, rfl, rfl, rfl, rfl, rfl, rfl⟩, ?_, ?_, ?_, ?_⟩
  · refine ⟨("Invalid input value for a: ") ++ toString v, ?_⟩
    simp [Gates.evaluate, Gates.validateInputs, Gates.nandGate, List.find?, dictLookup, hb,
      bind, Except.bind]
  · refine ⟨("Invalid input value for in: ") ++ toString v, ?_⟩
    simp [Gates.evaluate, Gates.validateInputs, Gates.notGate, List.find?, dictLookup, hb,
      bind, Except.bind]
  · refine ⟨("Invalid input value for a: ") ++ toString v, ?_⟩
    simp [Gates.evaluate, Gates.validateInputs, Gates.andGate, List.find?, dictLookup, hb,
      bind, Except.bind]
  · refine ⟨("Invalid input value for a: ") ++ toString v, ?_⟩
    simp [Gates.evaluate, Gates.validateInputs, Gates.orGate, List.find?, dictLookup, hb,
      bind, Except.bind]

/-- C5 witness: the validated evaluate path rejects the out-of-range input
value 2 on every gate. -/
theorem gate_validation_witness :
    (∃ e, Gates.evaluate Gates.nandGate [("a", 2), ("b", 0)] = .error e) ∧
    (∃ e, Gates.evaluate Gates.notGate [("in", 2)] = .error e) ∧
    (∃ e, Gates.evaluate Gates.andGate [("a", 2), ("b", 0)] = .error e) ∧
    (∃ e, Gates.evaluate Gates.orGate [("a", 2), ("b", 0)] = .error e) :=
  (gate_truth_tables_and_validation 2 (by decide) (by decide)).2.2

/-! ## Claim C9 counterexample -/

/-- C9 counterexample: a source repeating pin name a within IN and again in
OUT parses successfully into a definition with duplicated, non-disjoint pin
names. -/
theorem parser_accepts_duplicate_pins :
    parse_text dupHDL = .ok ⟨"X", ["a", "a"], ["a"], []⟩ := rfl

/-! ## Unfolding equations for the fuel-indexed recursions -/

theorem simulate_zero (inst : ChipInst) : simulate 0 inst = .error .depthLimit := rfl

theorem simulate_succ (f : Nat) : simulate (f + 1) = simulateBody (simulate f) := rfl

theorem mkChipInstance_zero (src : String → Option String) (cache : Cache)
    (d : ChipDefinition) : mkChipInstance 0 src cache d = .error .depthLimit := rfl

theorem mkChipInstance_succ (f : Nat) (src : String → Option String) :
    mkChipInstance (f + 1) src = mkChipBody (mkChipInstance f src) src := rfl

theorem mkInstP_zero (src : String → Option String) (d : ChipDefinition) :
    mkInstP 0 src d = .error .depthLimit := rfl

theorem mkInstP_succ (f : Nat) (src : String → Option String) :
    mkInstP (f + 1) src = mkChipBodyP (mkInstP f src) src := rfl

/-! ## Claim C10 -/

/-- C10: a builtin part all of whose bound input signals are present in the
table, at least one holding None, evaluates to success with the signal table
completely unchanged — in particular the signal bound to out keeps whatever
it held — and the part loop proceeds to the next part with no error. -/
theorem builtin_unset_operand_skipped (ct : String) (conns : List (String × String))
    (s : SignalTable) (hct : ct ∈ builtinNames)
    (hpres : ∀ p ∈ builtinInputPins ct, ∃ sig, dictLookup conns p = some sig ∧
      ∃ ov, dictLookup s sig = some ov)
    (hunset : ∃ p ∈ builtinInputPins ct, ∃ sig, dictLookup conns p = some sig ∧
      dictLookup s sig = some none) :
    simulateBuiltinStep ct conns s = .ok s := by
  have hcases : ct = "Nand" ∨ ct = "Not" ∨ ct = "And" ∨ ct = "Or" := by
    simpa [builtinNames] using hct
  rcases hcases with h | h | h | h <;> subst h
  · obtain ⟨sa, hca, va, hsa⟩ := hpres ("a") (by simp [builtinInputPins])
    obtain ⟨sb, hcb, vb, hsb⟩ := hpres ("b") (by simp [builtinInputPins])
    have hone : va = none ∨ vb = none := by
      obtain ⟨p, hp, sig, hcp, hsp⟩ := hunset
      simp [builtinInputPins] at hp
      rcases hp with hp | hp <;> subst hp
      · rw [hca] at hcp
        injection hcp with h1
        subst h1
        rw [hsa] at hsp
        injection hsp with h1
        exact Or.inl h1
      · rw [hcb] at hcp
        injection hcp with h1
        subst h1
        rw [hsb] at hsp
        injection hsp with h1
        exact Or.inr h1
    rcases hone with h1 | h1
    · subst h1
      simp [simulateBuiltinStep, getConn, getSignal, hca, hcb, hsa, hsb, bind, Except.bind]
    · subst h1
      cases va <;>
        simp [simulateBuiltinStep, getConn, getSignal, hca, hcb, hsa, hsb, bind, Except.bind]
  · obtain ⟨si, hci, vi, hsi⟩ := hpres ("in") (by simp [builtinInputPins])
    have hv : vi = none := by
      obtain ⟨p, hp, sig, hcp, hsp⟩ := hunset
      simp [builtinInputPins] at hp
      subst hp
      rw [hci] at hcp
      injection hcp with h1
      subst h1
      rw [hsi] at hsp
      exact Option.some.inj hsp
    subst hv
    simp [simulateBuiltinStep, getConn, getSignal, hci, hsi, bind, Except.bind]
  · obtain ⟨sa, hca, va, hsa⟩ := hpres ("a") (by simp [builtinInputPins])
    obtain ⟨sb, hcb, vb, hsb⟩ := hpres ("b") (by simp [builtinInputPins])
    have hone : va = none ∨ vb = none := by
      obtain ⟨p, hp, sig, hcp, hsp⟩ := hunset
      simp [builtinInputPins] at hp
      rcases hp with hp | hp <;> subst hp
      · rw [hca] at hcp
        injection hcp with h1
        subst h1
        rw [hsa] at hsp
        injection hsp with h1
        exact Or.inl h1
      · rw [hcb] at hcp
        injection hcp with h1
        subst h1
        rw [hsb] at hsp
        injection hsp with h1
        exact Or.inr h1
    rcases hone with h1 | h1
    · subst h1
      simp [simulateBuiltinStep, getConn, getSignal, hca, hcb, hsa, hsb, bind, Except.bind]
    · subst h1
      cases va <;>
        simp [simulateBuiltinStep, getConn, getSignal, hca, hcb, hsa, hsb, bind, Except.bind]
  · obtain ⟨sa, hca, va, hsa⟩ := hpres ("a") (by simp [builtinInputPins])
    obtain ⟨sb, hcb, vb, hsb⟩ := hpres ("b") (by simp [builtinInputPins])
    have hone : va = none ∨ vb = none := by
      obtain ⟨p, hp, sig, hcp, hsp⟩ := hunset
      simp [builtinInputPins] at hp
      rcases hp with hp | hp <;> subst hp
      · rw [hca] at hcp
        injection hcp with h1
        subst h1
        rw [hsa] at hsp
        injection hsp with h1
        exact Or.inl h1
      · rw [hcb] at hcp
        injection hcp with h1
        subst h1
        rw [hsb] at hsp
        injection hsp with h1
        exact Or.inr h1
    rcases hone with h1 | h1
    · subst h1
      simp [simulateBuiltinStep, getConn, getSignal, hca, hcb, hsa, hsb, bind, Except.bind]
    · subst h1
      cases va <;>
        simp [simulateBuiltinStep, getConn, getSignal, hca, hcb, hsa, hsb, bind, Except.bind]

/-- C10 witness: a Nand part bound to a set a and an unset b is skipped,
returning the table unchanged. -/
theorem builtin_unset_operand_skipped_witness :
    simulateBuiltinStep ("Nand") [("a", "a"), ("b", "b"), ("out", "out")]
      [("a", some 1), ("b", none), ("out", some 0)]
      = .ok [("a", some 1), ("b", none), ("out", some 0)] :=
  builtin_unset_operand_skipped ("Nand") [("a", "a"), ("b", "b"), ("out", "out")]
    [("a", some 1), ("b", none), ("out", some 0)]
    (by simp [builtinNames])
    (by
      intro p hp
      simp [builtinInputPins] at hp
      rcases hp with hp | hp <;> subst hp
      · exact ⟨"a", rfl, some 1, rfl⟩
      · exact ⟨"b", rfl, none, rfl⟩)
    ⟨"b", by simp [builtinInputPins], "b", rfl, rfl⟩

/-! ## Claim C4 -/

/-- C4: instantiation records exactly one sub-chip entry per PARTS element,
in declaration order; and the simulation loop over sub-chip entries is a
sequential left-to-right fold, so each entry is processed exactly once, in
list order, with no reordering. -/
theorem parts_in_declaration_order :
    (∀ (mkSub : Cache → ChipDefinition → Except SimErr (ChipInst × Cache))
       (src : String → Option String) (cache : Cache) (ps : List PartInstance)
       (subs : List SubEntry) (c' : Cache),
       instantiateParts mkSub src cache ps = .ok (subs, c') →
       subs.map SubEntry.chipType = ps.map PartInstance.chip_type) ∧
    (∀ (ev : ChipInst → Except SimErr (List (String × Option Int)))
       (xs ys : List SubEntry) (s : SignalTable),
       runParts ev (xs ++ ys) s = (runParts ev xs s).bind (runParts ev ys)) := by
  constructor
  · intro mkSub src cache ps
    induction ps generalizing cache with
    | nil =>
      intro subs c' h
      simp only [instantiateParts] at h
      obtain ⟨h1, -⟩ : [] = subs ∧ cache = c' := by simpa using h
      rw [← h1]; rfl
    | cons p rest ih =>
      intro subs c' h
      simp only [instantiateParts] at h
      split at h
      · cases h1 : instantiateParts mkSub src cache rest with
        | error e => rw [h1] at h; simp [bind, Except.bind] at h
        | ok pr =>
          obtain ⟨subs', c''⟩ := pr
          rw [h1] at h
          simp only [bind, Except.bind] at h
          obtain ⟨h2, -⟩ : SubEntry.builtin p.chip_type p.connections :: subs' = subs ∧ c'' = c' := by
            simpa using h
          rw [← h2]
          simp only [List.map, SubEntry.chipType]
          rw [ih cache subs' c'' h1]
      · cases h1 : loadChipDefinition src cache p.chip_type with
        | error e => rw [h1] at h; simp [bind, Except.bind] at h
        | ok pr1 =>
          obtain ⟨d1, c1⟩ := pr1
          rw [h1] at h
          simp only [bind, Except.bind] at h
          cases h2 : mkSub c1 d1 with
          | error e => rw [h2] at h; simp [bind, Except.bind] at h
          | ok pr2 =>
            obtain ⟨i1, c2⟩ := pr2
            rw [h2] at h
            simp only [bind, Except.bind] at h
            cases h3 : instantiateParts mkSub src c2 rest with
            | error e => rw [h3] at h; simp [bind, Except.bind] at h
            | ok pr3 =>
              obtain ⟨subs', c3⟩ := pr3
              rw [h3] at h
              simp only [bind, Except.bind] at h
              obtain ⟨h4, -⟩ :
                  SubEntry.custom p.chip_type p.connections i1 :: subs' = subs ∧ c3 = c' := by
                simpa using h
              rw [← h4]
              simp only [List.map, SubEntry.chipType]
              rw [ih c2 subs' c3 h3]
  · intro ev xs ys s
    induction xs generalizing s with
    | nil => simp [runParts, bind, Except.bind]
    | cons e rest ih =>
      cases e with
      | builtin ct conns =>
        simp only [List.cons_append, runParts, bind, Except.bind]
        cases simulateBuiltinStep ct conns s with
        | error e => rfl
        | ok s' => exact ih s'
      | custom ct conns inst =>
        simp only [List.cons_append, runParts, bind, Except.bind]
        cases buildSubInputs inst.chip_def.inputs conns s with
        | error e => rfl
        | ok subIns =>
          dsimp only
          cases ev (inst.set_inputs subIns) with
          | error e => rfl
          | ok subOuts =>
            dsimp only
            cases copyOutputsBack inst.chip_def.outputs conns subOuts s with
            | error e => rfl
            | ok s' => exact ih s'

/-- C4 witness: the And chip's two parts yield two sub-chip entries of the
same chip types in the same order, and the part loop splits sequentially
over a concrete list split. -/
theorem parts_in_declaration_order_witness :
    ([SubEntry.builtin ("Nand") [("a", "a"), ("b", "b"), ("out", "n")],
      SubEntry.builtin ("Not") [("in", "n"), ("out", "out")]].map SubEntry.chipType
      = andDef.parts.map PartInstance.chip_type) ∧
    (runParts (fun _ => .error .depthLimit)
        ([SubEntry.builtin ("Nand") [("a", "a"), ("b", "b"), ("out", "n")]] ++
         [SubEntry.builtin ("Not") [("in", "n"), ("out", "out")]])
        [("a", some 1), ("b", some 1), ("out", none)]
      = (runParts (fun _ => .error .depthLimit)
          [SubEntry.builtin ("Nand") [("a", "a"), ("b", "b"), ("out", "n")]]
          [("a", some 1), ("b", some 1), ("out", none)]).bind
          (runParts (fun _ => .error .depthLimit)
            [SubEntry.builtin ("Not") [("in", "n"), ("out", "out")]])) :=
  ⟨parts_in_declaration_order.1 (fun _ _ => .error .depthLimit) andSrc [] andDef.parts
      [SubEntry.builtin ("Nand") [("a", "a"), ("b", "b"), ("out", "n")],
       SubEntry.builtin ("Not") [("in", "n"), ("out", "out")]] [] rfl,
   parts_in_declaration_order.2 (fun _ => .error .depthLimit)
     [SubEntry.builtin ("Nand") [("a", "a"), ("b", "b"), ("out", "n")]]
     [SubEntry.builtin ("Not") [("in", "n"), ("out", "out")]]
     [("a", some 1), ("b", some 1), ("out", none)]⟩

/-! ## Claim C3 -/

/-- C3 amended: set_inputs performs no validation of the caller's key set:
every binding whose key is not a declared input pin is silently ignored
(given only such keys the instance is unchanged), and the missing-input
scenario simulate("And", with only a) fails with KeyError for the internal
wire n rather than any InvalidInputError naming b. -/
theorem set_inputs_ignores_unknown_keys (d : ChipDefinition) (s : SignalTable)
    (sc : List SubEntry) (ins : List (String × Option Int))
    (h : ∀ pv ∈ ins, pv.1 ∉ d.inputs) :
    ChipInst.set_inputs (.mk d s sc) ins = .mk d s sc ∧
    simulateChip 10 andSrc [] ("And") [("a", 1)] = .error (.keyError ("n")) := by
  refine ⟨?_, rfl⟩
  show ChipInst.mk d (setInputsTable d s ins) sc = .mk d s sc
  have hT : setInputsTable d s ins = s := by
    induction ins with
    | nil => rfl
    | cons pv rest ih =>
      have h1 : d.inputs.contains pv.1 = false := by
        simpa using h pv (List.mem_cons_self pv rest)
      have h2 : ∀ q ∈ rest, q.1 ∉ d.inputs := fun q hq => h q (List.mem_cons_of_mem pv hq)
      simp only [setInputsTable, List.foldl_cons, h1, Bool.false_eq_true, if_false]
      exact ih h2
  rw [hT]

/-- C3 witness: a binding for the undeclared key z leaves the instance
unchanged, and the missing-input And scenario yields KeyError n. -/
theorem set_inputs_ignores_unknown_keys_witness :
    ChipInst.set_inputs (.mk badDef [("a", none)] []) [("z", some 1)]
      = .mk badDef [("a", none)] [] ∧
    simulateChip 10 andSrc [] ("And") [("a", 1)] = .error (.keyError ("n")) :=
  set_inputs_ignores_unknown_keys badDef [("a", none)] [] [("z", some 1)]
    (by simp [badDef])

/-! ## Signal-table lemmas -/

theorem dictLookup_foldl_insert_none (l : List String) (s : SignalTable) (p : String) :
    dictLookup (l.foldl (fun s q => dictInsert s q none) s) p
      = if p ∈ l then some none else dictLookup s p := by
  induction l generalizing s with
  | nil => simp
  | cons q rest ih =>
    simp only [List.foldl_cons]
    rw [ih]
    by_cases hp : p ∈ rest
    · simp [hp]
    · by_cases hq : p = q
      · subst hq
        simp [hp, dictLookup_dictInsert_self]
      · simp [List.mem_cons, hp, hq, dictLookup_dictInsert_ne s q p none hq]

theorem initSignals_lookup (d : ChipDefinition) (p : String) :
    dictLookup (initSignals d) p
      = if p ∈ d.inputs ++ d.outputs then some none else none := by
  show dictLookup ((d.inputs ++ d.outputs).foldl (fun s q => dictInsert s q none) []) p = _
  rw [dictLookup_foldl_insert_none]
  rfl

theorem clearNonInputs_lookup (d : ChipDefinition) (s : SignalTable) (p : String) :
    dictLookup (clearNonInputs d s) p
      = (dictLookup s p).map (fun v => if d.inputs.contains p then v else none) := by
  induction s with
  | nil => rfl
  | cons nv rest ih =>
    obtain ⟨n, v⟩ := nv
    simp only [clearNonInputs, List.map_cons] at ih ⊢
    by_cases hc : d.inputs.contains n = true
    · rw [if_pos hc]
      by_cases hn : n = p
      · subst hn
        have hm : n ∈ d.inputs := by simpa using hc
        simp [dictLookup, hm]
      · simp only [dictLookup, if_neg hn]
        exact ih
    · rw [if_neg hc]
      by_cases hn : n = p
      · subst hn
        have hm : n ∉ d.inputs := by simpa using hc
        simp [dictLookup, hm]
      · simp only [dictLookup, if_neg hn]
        exact ih

theorem setInputsTable_isSome (d : ChipDefinition) (ins : List (String × Option Int))
    (s : SignalTable) (p : String) (h : (dictLookup s p).isSome) :
    (dictLookup (setInputsTable d s ins) p).isSome := by
  induction ins generalizing s with
  | nil => exact h
  | cons pv rest ih =>
    show (dictLookup (setInputsTable d
      (if d.inputs.contains pv.1 then dictInsert s pv.1 pv.2 else s) rest) p).isSome
    by_cases hc : d.inputs.contains pv.1 = true
    · rw [if_pos hc]
      exact ih (dictInsert s pv.1 pv.2) (dictLookup_dictInsert_isSome s pv.1 p pv.2 h)
    · rw [if_neg hc]
      exact ih s h

theorem setInputsTable_lookup_not_input (d : ChipDefinition)
    (ins : List (String × Option Int)) (s : SignalTable) (p : String)
    (hp : p ∉ d.inputs) :
    dictLookup (setInputsTable d s ins) p = dictLookup s p := by
  induction ins generalizing s with
  | nil => rfl
  | cons pv rest ih =>
    show dictLookup (setInputsTable d
      (if d.inputs.contains pv.1 then dictInsert s pv.1 pv.2 else s) rest) p = dictLookup s p
    by_cases hc : d.inputs.contains pv.1 = true
    · rw [if_pos hc, ih (dictInsert s pv.1 pv.2)]
      refine dictLookup_dictInsert_ne s pv.1 p pv.2 ?_
      intro hh
      exact hp (hh ▸ (by simpa using hc))
    · rw [if_neg hc]
      exact ih s

theorem collectOutputs_ok (outs : List String) (s : SignalTable)
    (h : ∀ p ∈ outs, (dictLookup s p).isSome) :
    ∃ res, collectOutputs outs s = .ok res ∧
      ∀ p, dictLookup res p = if p ∈ outs then dictLookup s p else none := by
  suffices H : ∀ (acc : SignalTable), (∀ p ∈ outs, (dictLookup s p).isSome) →
      ∃ res, (outs.foldlM (fun acc p =>
          match dictLookup s p with
          | none => Except.error (SimErr.keyError p)
          | some v => pure (dictInsert acc p v)) acc) = .ok res ∧
        ∀ p, dictLookup res p = if p ∈ outs then dictLookup s p else dictLookup acc p by
    obtain ⟨res, h1, h2⟩ := H [] h
    exact ⟨res, h1, h2⟩
  clear h
  induction outs with
  | nil =>
    intro acc h
    refine ⟨acc, rfl, ?_⟩
    intro p
    simp
  | cons o rest ih =>
    intro acc h
    obtain ⟨v, hv⟩ := Option.isSome_iff_exists.mp (h o (List.mem_cons_self o rest))
    obtain ⟨res, h1, h2⟩ := ih (dictInsert acc o v) (fun p hp => h p (List.mem_cons_of_mem o hp))
    refine ⟨res, ?_, ?_⟩
    · rw [List.foldlM_cons, hv]
      simpa [bind, Except.bind, pure, Except.pure] using h1
    · intro p
      by_cases hpr : p ∈ rest
      · simp [h2 p, hpr, List.mem_cons]
      · by_cases hpo : p = o
        · subst hpo
          rw [h2 p]
          simp [hpr, dictLookup_dictInsert_self, hv]
        · rw [h2 p]
          simp [hpr, hpo, List.mem_cons, dictLookup_dictInsert_ne acc o p v hpo]

/-! ## Claim C2 -/

/-- C2 amended: a chip with no parts never writes its outputs; instantiation
succeeds, simulation succeeds, and each declared output pin not shared with
an input is returned mapped to None — no error of any kind is raised for the
unresolved output. -/
theorem unwritten_output_kept_none (src : String → Option String) (cache : Cache)
    (d : ChipDefinition) (ins : List (String × Option Int)) (fuel g : Nat) (o : String)
    (hparts : d.parts = []) (ho : o ∈ d.outputs) (hno : o ∉ d.inputs) :
    mkChipInstance (fuel + 1) src cache d = .ok (.mk d (initSignals d) [], cache) ∧
    ∃ outs, simulate (g + 1) ((ChipInst.mk d (initSignals d) []).set_inputs ins) = .ok outs ∧
      dictLookup outs o = some none := by
  constructor
  · rw [mkChipInstance_succ]
    simp [mkChipBody, hparts, instantiateParts, bind, Except.bind]
  · rw [simulate_succ]
    have hsome : ∀ p ∈ d.outputs,
        (dictLookup (clearNonInputs d (setInputsTable d (initSignals d) ins)) p).isSome := by
      intro p hp
      rw [clearNonInputs_lookup]
      have h1 : (dictLookup (setInputsTable d (initSignals d) ins) p).isSome := by
        apply setInputsTable_isSome
        rw [initSignals_lookup]
        simp [List.mem_append, hp]
      obtain ⟨w, hw⟩ := Option.isSome_iff_exists.mp h1
      rw [hw]
      rfl
    obtain ⟨res, h1, h2⟩ :=
      collectOutputs_ok d.outputs (clearNonInputs d (setInputsTable d (initSignals d) ins)) hsome
    refine ⟨res, ?_, ?_⟩
    · show collectOutputs d.outputs (clearNonInputs d (setInputsTable d (initSignals d) ins))
        = .ok res
      exact h1
    · rw [h2 o]
      rw [if_pos ho, clearNonInputs_lookup, setInputsTable_lookup_not_input d ins _ o hno,
        initSignals_lookup]
      have hc : d.inputs.contains o = false := by simpa using hno
      simp [List.mem_append, ho, hc]

/-- C2 witness: the Bad chip with empty PARTS instantiates and simulates
successfully, its out pin coming back as None. -/
theorem unwritten_output_kept_none_witness :
    mkChipInstance 10 badSrc [] badDef = .ok (.mk badDef (initSignals badDef) [], []) ∧
    ∃ outs, simulate 10 ((ChipInst.mk badDef (initSignals badDef) []).set_inputs
      [("a", some 0)]) = .ok outs ∧ dictLookup outs ("out") = some none :=
  unwritten_output_kept_none badSrc [] badDef [("a", some 0)] 9 9 ("out") rfl
    (by simp [badDef]) (by simp [badDef])

/-! ## Tokenizer lemmas and claim C6 -/

theorem matchToken_prev_eq (p1 p2 : Option Char) (cs : List Char)
    (h : boundaryBefore p1 = boundaryBefore p2) :
    matchToken p1 cs = matchToken p2 cs := by
  cases cs with
  | nil => rfl
  | cons c rest =>
    simp only [matchToken, matchKw, h]

theorem scanTokens_prev_eq (fuel : Nat) : ∀ (p1 p2 : Option Char) (cs : List Char),
    boundaryBefore p1 = boundaryBefore p2 →
    scanTokens fuel p1 cs = scanTokens fuel p2 cs := by
  induction fuel with
  | zero => intro p1 p2 cs h; rfl
  | succ f ih =>
    intro p1 p2 cs h
    cases cs with
    | nil => rfl
    | cons c rest =>
      simp only [scanTokens]
      rw [matchToken_prev_eq p1 p2 (c :: rest) h]

theorem isIdentStart_isWordChar (c : Char) (h : isIdentStart c = true) :
    isWordChar c = true := by
  simp only [isIdentStart, Bool.or_eq_true, Bool.and_eq_true, decide_eq_true_eq] at h
  simp only [isWordChar, Bool.or_eq_true, Bool.and_eq_true, decide_eq_true_eq]
  tauto

/-- C6 amended: a character that begins no token pattern (not a word
character, not whitespace, not one of the punctuation characters, not a
slash) is silently skipped by the scanner: tokenizing the text with that
character prepended returns exactly the tokens of the rest, and no error is
signalled. -/
theorem tokenizer_skips_unmatched_char (c : Char) (l : List Char)
    (hw : isWordChar c = false) (hs : isSpaceChar c = false)
    (hp : c ∉ ['\x7b', '\x7d', '(', ')', ';', ',', '=', ':', '/']) :
    tokenize (String.mk (c :: l)) = tokenize (String.mk l) := by
  have hkw : ∀ (k : Char) (kw : List Char), isWordChar k = true →
      matchKw (k :: kw) none (c :: l) = false := by
    intro k kw hk
    have hne : (k == c) = false := by
      refine beq_eq_false_iff_ne.mpr ?_
      intro hh
      rw [hh, hw] at hk
      exact absurd hk (by decide)
    simp [matchKw, List.isPrefixOf, hne]
  have h1 := hkw 'C' ['H', 'I', 'P'] (by decide)
  have h2 := hkw 'I' ['N'] (by decide)
  have h3 := hkw 'O' ['U', 'T'] (by decide)
  have h4 := hkw 'P' ['A', 'R', 'T', 'S'] (by decide)
  have hi : isIdentStart c = false := by
    cases hca : isIdentStart c
    · rfl
    · rw [isIdentStart_isWordChar c hca] at hw
      exact absurd hw (by decide)
  simp only [List.mem_cons, List.not_mem_nil, or_false, not_or] at hp
  obtain ⟨hb1, hb2, hb3, hb4, hb5, hb6, hb7, hb8, hb9⟩ := hp
  have hmt : matchToken none (c :: l) = none := by
    simp [matchToken, h1, h2, h3, h4, hi, hb1, hb2, hb3, hb4, hb5, hb6, hb7, hb8, hb9, hs]
  show scanTokens (c :: l).length none (c :: l) = scanTokens l.length none l
  rw [List.length_cons]
  simp only [scanTokens, hmt]
  exact scanTokens_prev_eq l.length (some c) none l (by simp [boundaryBefore, hw])

/-- C6 witness: prepending the unmatched character @ to the text x leaves
its token list unchanged. -/
theorem tokenizer_skips_unmatched_char_witness :
    tokenize (String.mk ['@', 'x']) = tokenize (String.mk ['x']) :=
  tokenizer_skips_unmatched_char '@' ['x'] (by decide) (by decide) (by decide)

/-! ## Parser provenance lemmas and claim C9 -/

theorem matchToken_ident (prev : Option Char) (cs : List Char)
    (lex rest' : List Char)
    (h : matchToken prev cs = some (("IDENTIFIER"), lex, rest')) :
    isIdentStr lex.asString = true := by
  cases cs with
  | nil => exact Option.noConfusion h
  | cons c rest =>
    simp only [matchToken] at h
    by_cases k1 : matchKw (['C', 'H', 'I', 'P']) prev (c :: rest) = true
    · rw [if_pos k1] at h
      injection h with h1
      injection h1 with h2 h3
      exact absurd h2 (by decide)
    · rw [if_neg k1] at h
      by_cases k2 : matchKw (['I', 'N']) prev (c :: rest) = true
      · rw [if_pos k2] at h
        injection h with h1
        injection h1 with h2 h3
        exact absurd h2 (by decide)
      · rw [if_neg k2] at h
        by_cases k3 : matchKw (['O', 'U', 'T']) prev (c :: rest) = true
        · rw [if_pos k3] at h
          injection h with h1
          injection h1 with h2 h3
          exact absurd h2 (by decide)
        · rw [if_neg k3] at h
          by_cases k4 : matchKw (['P', 'A', 'R', 'T', 'S']) prev (c :: rest) = true
          · rw [if_pos k4] at h
            injection h with h1
            injection h1 with h2 h3
            exact absurd h2 (by decide)
          · rw [if_neg k4] at h
            by_cases k5 : isIdentStart c = true
            · rw [if_pos k5] at h
              injection h with h1
              injection h1 with h2 h3
              injection h3 with h4 h5
              rw [← h4]
              show isIdentStr (String.mk (c :: rest.takeWhile isWordChar)) = true
              simp only [isIdentStr, Bool.and_eq_true]
              refine ⟨k5, ?_⟩
              rw [List.all_eq_true]
              intro x hx
              exact List.mem_takeWhile_imp hx
            · rw [if_neg k5] at h
              by_cases k6 : c = '\x7b'
              · rw [if_pos k6] at h
                injection h with h1
                injection h1 with h2 h3
                exact absurd h2 (by decide)
              · rw [if_neg k6] at h
                by_cases k7 : c = '\x7d'
                · rw [if_pos k7] at h
                  injection h with h1
                  injection h1 with h2 h3
                  exact absurd h2 (by decide)
                · rw [if_neg k7] at h
                  by_cases k8 : c = '('
                  · rw [if_pos k8] at h
                    injection h with h1
                    injection h1 with h2 h3
                    exact absurd h2 (by decide)
                  · rw [if_neg k8] at h
                    by_cases k9 : c = ')'
                    · rw [if_pos k9] at h
                      injection h with h1
                      injection h1 with h2 h3
                      exact absurd h2 (by decide)
                    · rw [if_neg k9] at h
                      by_cases k10 : c = ';'
                      · rw [if_pos k10] at h
                        injection h with h1
                        injection h1 with h2 h3
                        exact absurd h2 (by decide)
                      · rw [if_neg k10] at h
                        by_cases k11 : c = ','
                        · rw [if_pos k11] at h
                          injection h with h1
                          injection h1 with h2 h3
                          exact absurd h2 (by decide)
                        · rw [if_neg k11] at h
                          by_cases k12 : c = '='
                          · rw [if_pos k12] at h
                            injection h with h1
                            injection h1 with h2 h3
                            exact absurd h2 (by decide)
                          · rw [if_neg k12] at h
                            by_cases k13 : c = ':'
                            · rw [if_pos k13] at h
                              injection h with h1
                              injection h1 with h2 h3
                              exact absurd h2 (by decide)
                            · rw [if_neg k13] at h
                              by_cases k14 : (decide (c = '/') && decide (rest.head? = some '/')) = true
                              · rw [if_pos k14] at h
                                injection h with h1
                                injection h1 with h2 h3
                                exact absurd h2 (by decide)
                              · rw [if_neg k14] at h
                                by_cases k15 : isSpaceChar c = true
                                · rw [if_pos k15] at h
                                  injection h with h1
                                  injection h1 with h2 h3
                                  exact absurd h2 (by decide)
                                · rw [if_neg k15] at h
                                  exact Option.noConfusion h

theorem scanTokens_ident (fuel : Nat) : ∀ (prev : Option Char) (cs : List Char)
    (v : String), (("IDENTIFIER"), v) ∈ scanTokens fuel prev cs →
    isIdentStr v = true := by
  induction fuel with
  | zero =>
    intro prev cs v hmem
    simp [scanTokens] at hmem
  | succ f ih =>
    intro prev cs v hmem
    cases cs with
    | nil => simp [scanTokens] at hmem
    | cons c rest =>
      simp only [scanTokens] at hmem
      cases hmt : matchToken prev (c :: rest) with
      | none =>
        rw [hmt] at hmem
        exact ih (some c) rest v hmem
      | some tkr =>
        obtain ⟨kind, lex, rest'⟩ := tkr
        rw [hmt] at hmem
        dsimp only at hmem
        by_cases hskip : (kind = "WHITESPACE" || kind = "COMMENT" || kind = "NEWLINE") = true
        · rw [if_pos hskip] at hmem
          exact ih lex.getLast? rest' v hmem
        · rw [if_neg hskip] at hmem
          rcases List.mem_cons.mp hmem with heq | hmem'
          · injection heq with hk hv
            rw [hv]
            rw [← hk] at hmt
            exact matchToken_ident prev (c :: rest) lex rest' hmt
          · exact ih lex.getLast? rest' v hmem'

theorem expectToken_ok (expected : String) (toks : List Token) (v : String)
    (rest : List Token) (h : expectToken expected toks = .ok (v, rest)) :
    toks = (expected, v) :: rest := by
  cases toks with
  | nil => simp [expectToken] at h
  | cons t tr =>
    obtain ⟨t1, t2⟩ := t
    simp only [expectToken] at h
    by_cases ht : t1 = expected
    · rw [if_pos ht] at h
      obtain ⟨h1, h2⟩ : t2 = v ∧ tr = rest := by simpa using h
      rw [ht, h1, h2]
    · rw [if_neg ht] at h
      exact Except.noConfusion h

theorem parseMoreIdents_spec (toks : List Token) (acc ids : List String)
    (rest : List Token) (h : parseMoreIdents toks acc = .ok (ids, rest)) :
    (∀ x ∈ ids, x ∈ acc ∨ (("IDENTIFIER"), x) ∈ toks) ∧ rest <:+ toks := by
  suffices H : ∀ (n : Nat) (toks : List Token), toks.length ≤ n →
      ∀ (acc ids : List String) (rest : List Token),
      parseMoreIdents toks acc = .ok (ids, rest) →
      (∀ x ∈ ids, x ∈ acc ∨ (("IDENTIFIER"), x) ∈ toks) ∧ rest <:+ toks by
    exact H toks.length toks le_rfl acc ids rest h
  intro n
  induction n with
  | zero =>
    intro toks hlen acc ids rest h
    rw [List.length_eq_zero.mp (Nat.le_zero.mp hlen)] at h ⊢
    obtain ⟨h1, h2⟩ : acc = ids ∧ ([] : List Token) = rest := by
      simpa [parseMoreIdents] using h
    rw [← h1, ← h2]
    exact ⟨fun x hx => Or.inl hx, List.nil_suffix⟩
  | succ m ih =>
    intro toks hlen acc ids rest h
    cases toks with
    | nil =>
      obtain ⟨h1, h2⟩ : acc = ids ∧ ([] : List Token) = rest := by
        simpa [parseMoreIdents] using h
      rw [← h1, ← h2]
      exact ⟨fun x hx => Or.inl hx, List.nil_suffix⟩
    | cons t tr =>
      rw [parseMoreIdents.eq_def] at h
      dsimp only at h
      by_cases hc : t.1 = "COMMA"
      · rw [if_pos hc] at h
        cases tr with
        | nil => exact Except.noConfusion h
        | cons t1 tr1 =>
          dsimp only at h
          by_cases hk : t1.1 = "IDENTIFIER"
          · rw [if_pos hk] at h
            have hlen1 : tr1.length ≤ m := by
              simp only [List.length_cons] at hlen
              omega
            obtain ⟨hmem, hsuf⟩ := ih tr1 hlen1 (acc ++ [t1.2]) ids rest h
            constructor
            · intro x hx
              rcases hmem x hx with hx' | hx'
              · rcases List.mem_append.mp hx' with h1 | h1
                · exact Or.inl h1
                · right
                  have hx2 : x = t1.2 := by simpa using h1
                  subst hx2
                  have ht1 : ((("IDENTIFIER") : String), t1.2) = t1 := by
                    obtain ⟨a, b⟩ := t1
                    simp only at hk
                    rw [hk]
                  rw [ht1]
                  exact List.mem_cons_of_mem t (List.mem_cons_self t1 tr1)
              · exact Or.inr (List.mem_cons_of_mem t (List.mem_cons_of_mem t1 hx'))
            · exact hsuf.trans ((List.suffix_cons t1 tr1).trans (List.suffix_cons t (t1 :: tr1)))
          · rw [if_neg hk] at h
            exact Except.noConfusion h
      · rw [if_neg hc] at h
        obtain ⟨h1, h2⟩ : acc = ids ∧ t :: tr = rest := by simpa using h
        rw [← h1, ← h2]
        exact ⟨fun x hx => Or.inl hx, List.suffix_refl _⟩

theorem parse_in_section_spec (toks : List Token) (ids : List String) (rest : List Token)
    (h : parse_in_section toks = .ok (ids, rest)) :
    (∀ x ∈ ids, (("IDENTIFIER"), x) ∈ toks) ∧ rest <:+ toks := by
  simp only [parse_in_section, bind, Except.bind] at h
  cases hE1 : expectToken ("IN") toks with
  | error e => rw [hE1] at h; exact Except.noConfusion h
  | ok p1 =>
    obtain ⟨v1, t1⟩ := p1
    rw [hE1] at h
    dsimp only at h
    cases hE2 : expectToken ("IDENTIFIER") t1 with
    | error e => rw [hE2] at h; exact Except.noConfusion h
    | ok p2 =>
      obtain ⟨v2, t2⟩ := p2
      rw [hE2] at h
      dsimp only at h
      cases hE3 : parseMoreIdents t2 [v2] with
      | error e => rw [hE3] at h; exact Except.noConfusion h
      | ok p3 =>
        obtain ⟨ids3, t3⟩ := p3
        rw [hE3] at h
        dsimp only at h
        cases hE4 : expectToken ("SEMICOLON") t3 with
        | error e => rw [hE4] at h; exact Except.noConfusion h
        | ok p4 =>
          obtain ⟨v4, t4⟩ := p4
          rw [hE4] at h
          dsimp only at h
          obtain ⟨hids, hrest⟩ : ids3 = ids ∧ t4 = rest := by simpa using h
          rw [← hids, ← hrest]
          have e1 := expectToken_ok _ _ _ _ hE1
          have e2 := expectToken_ok _ _ _ _ hE2
          have e4 := expectToken_ok _ _ _ _ hE4
          obtain ⟨hmem, hsuf⟩ := parseMoreIdents_spec t2 [v2] ids3 t3 hE3
          constructor
          · intro x hx
            rcases hmem x hx with hx' | hx'
            · have hx2 : x = v2 := by simpa using hx'
              subst hx2
              rw [e1, e2]
              exact List.mem_cons_of_mem _ (List.mem_cons_self _ _)
            · rw [e1, e2]
              exact List.mem_cons_of_mem _ (List.mem_cons_of_mem _ hx')
          · have s4 : t4 <:+ t3 := by rw [e4]; exact List.suffix_cons _ _
            have s2 : t2 <:+ t1 := by rw [e2]; exact List.suffix_cons _ _
            have s1 : t1 <:+ toks := by rw [e1]; exact List.suffix_cons _ _
            exact ((s4.trans hsuf).trans s2).trans s1

theorem parse_out_section_spec (toks : List Token) (ids : List String) (rest : List Token)
    (h : parse_out_section toks = .ok (ids, rest)) :
    (∀ x ∈ ids, (("IDENTIFIER"), x) ∈ toks) ∧ rest <:+ toks := by
  simp only [parse_out_section, bind, Except.bind] at h
  cases hE1 : expectToken ("OUT") toks with
  | error e => rw [hE1] at h; exact Except.noConfusion h
  | ok p1 =>
    obtain ⟨v1, t1⟩ := p1
    rw [hE1] at h
    dsimp only at h
    cases hE2 : expectToken ("IDENTIFIER") t1 with
    | error e => rw [hE2] at h; exact Except.noConfusion h
    | ok p2 =>
      obtain ⟨v2, t2⟩ := p2
      rw [hE2] at h
      dsimp only at h
      cases hE3 : parseMoreIdents t2 [v2] with
      | error e => rw [hE3] at h; exact Except.noConfusion h
      | ok p3 =>
        obtain ⟨ids3, t3⟩ := p3
        rw [hE3] at h
        dsimp only at h
        cases hE4 : expectToken ("SEMICOLON") t3 with
        | error e => rw [hE4] at h; exact Except.noConfusion h
        | ok p4 =>
          obtain ⟨v4, t4⟩ := p4
          rw [hE4] at h
          dsimp only at h
          obtain ⟨hids, hrest⟩ : ids3 = ids ∧ t4 = rest := by simpa using h
          rw [← hids, ← hrest]
          have e1 := expectToken_ok _ _ _ _ hE1
          have e2 := expectToken_ok _ _ _ _ hE2
          have e4 := expectToken_ok _ _ _ _ hE4
          obtain ⟨hmem, hsuf⟩ := parseMoreIdents_spec t2 [v2] ids3 t3 hE3
          constructor
          · intro x hx
            rcases hmem x hx with hx' | hx'
            · have hx2 : x = v2 := by simpa using hx'
              subst hx2
              rw [e1, e2]
              exact List.mem_cons_of_mem _ (List.mem_cons_self _ _)
            · rw [e1, e2]
              exact List.mem_cons_of_mem _ (List.mem_cons_of_mem _ hx')
          · have s4 : t4 <:+ t3 := by rw [e4]; exact List.suffix_cons _ _
            have s2 : t2 <:+ t1 := by rw [e2]; exact List.suffix_cons _ _
            have s1 : t1 <:+ toks := by rw [e1]; exact List.suffix_cons _ _
            exact ((s4.trans hsuf).trans s2).trans s1

theorem parse_chip_pins (toks : List Token) (d : ChipDefinition) (rest : List Token)
    (h : parse_chip toks = .ok (d, rest)) :
    ∀ x ∈ d.inputs ++ d.outputs, (("IDENTIFIER"), x) ∈ toks := by
  simp only [parse_chip, bind, Except.bind] at h
  cases hE1 : expectToken ("CHIP") toks with
  | error e => rw [hE1] at h; exact Except.noConfusion h
  | ok p1 =>
    obtain ⟨v1, t1⟩ := p1
    rw [hE1] at h
    dsimp only at h
    cases hE2 : expectToken ("IDENTIFIER") t1 with
    | error e => rw [hE2] at h; exact Except.noConfusion h
    | ok p2 =>
      obtain ⟨nm, t2⟩ := p2
      rw [hE2] at h
      dsimp only at h
      cases hE3 : expectToken ("LBRACE") t2 with
      | error e => rw [hE3] at h; exact Except.noConfusion h
      | ok p3 =>
        obtain ⟨v3, t3⟩ := p3
        rw [hE3] at h
        dsimp only at h
        cases hIn : parse_in_section t3 with
        | error e => rw [hIn] at h; exact Except.noConfusion h
        | ok pIn =>
          obtain ⟨ins, t4⟩ := pIn
          rw [hIn] at h
          dsimp only at h
          cases hOut : parse_out_section t4 with
          | error e => rw [hOut] at h; exact Except.noConfusion h
          | ok pOut =>
            obtain ⟨outs, t5⟩ := pOut
            rw [hOut] at h
            dsimp only at h
            cases hParts : parse_parts_section t5 with
            | error e => rw [hParts] at h; exact Except.noConfusion h
            | ok pParts =>
              obtain ⟨ps, t6⟩ := pParts
              rw [hParts] at h
              dsimp only at h
              cases hE7 : expectToken ("RBRACE") t6 with
              | error e => rw [hE7] at h; exact Except.noConfusion h
              | ok p7 =>
                obtain ⟨v7, t7⟩ := p7
                rw [hE7] at h
                dsimp only at h
                obtain ⟨hd, -⟩ : ChipDefinition.mk nm ins outs ps = d ∧ t7 = rest := by
                  simpa using h
                have e1 := expectToken_ok _ _ _ _ hE1
                have e2 := expectToken_ok _ _ _ _ hE2
                have e3 := expectToken_ok _ _ _ _ hE3
                obtain ⟨hmemIn, hsufIn⟩ := parse_in_section_spec t3 ins t4 hIn
                obtain ⟨hmemOut, -⟩ := parse_out_section_spec t4 outs t5 hOut
                have s3 : t3 <:+ toks := by
                  have s3a : t3 <:+ t2 := by rw [e3]; exact List.suffix_cons _ _
                  have s2a : t2 <:+ t1 := by rw [e2]; exact List.suffix_cons _ _
                  have s1a : t1 <:+ toks := by rw [e1]; exact List.suffix_cons _ _
                  exact (s3a.trans s2a).trans s1a
                intro x hx
                rw [← hd] at hx
                dsimp only at hx
                rcases List.mem_append.mp hx with hx' | hx'
                · exact s3.subset (hmemIn x hx')
                · exact s3.subset (hsufIn.subset (hmemOut x hx'))

/-- C9 amended: every pin name of a parser-produced ChipDefinition comes
from an IDENTIFIER token and is therefore a non-empty valid identifier; the
parser guarantees nothing more (see the counterexample for duplicates). -/
theorem parsed_pins_are_identifiers (text : String) (d : ChipDefinition)
    (h : parse_text text = .ok d) :
    ∀ p ∈ d.inputs ++ d.outputs, isIdentStr p = true := by
  simp only [parse_text] at h
  cases hP : parse_chip (tokenize text) with
  | error e => rw [hP] at h; exact Except.noConfusion h
  | ok pr =>
    obtain ⟨d1, rest⟩ := pr
    rw [hP] at h
    have hd : d1 = d := by simpa [Except.map] using h
    subst hd
    intro p hp
    have hmem := parse_chip_pins (tokenize text) d1 rest hP p hp
    exact scanTokens_ident (text.data.length) none text.data p hmem

/-- C9 witness: the pin out of the parsed And chip is identifier-shaped. -/
theorem parsed_pins_are_identifiers_witness : isIdentStr ("out") = true :=
  parsed_pins_are_identifiers andHDL andDef rfl ("out") (by simp [andDef])

/-! ## Cache coherence and claim C8 -/

theorem load_rel (src : String → Option String) (cache : Cache) (n : String)
    (hcoh : CacheCoherent src cache) :
    (loadChipDefinition src cache n).map Prod.fst = loadPure src n ∧
    (∀ d c', loadChipDefinition src cache n = .ok (d, c') → CacheCoherent src c') := by
  simp only [loadChipDefinition]
  cases hc : dictLookup cache n with
  | some d0 =>
    dsimp only
    refine ⟨?_, ?_⟩
    · rw [hcoh n d0 hc]; rfl
    · intro d c' h
      obtain ⟨-, h2⟩ : d0 = d ∧ cache = c' := by simpa using h
      rw [← h2]
      exact hcoh
  | none =>
    dsimp only
    cases hs : src n with
    | none =>
      dsimp only
      refine ⟨by simp [loadPure, hs, Except.map], ?_⟩
      intro d c' h
      exact Except.noConfusion h
    | some text =>
      dsimp only
      cases hp : parse_text text with
      | error e =>
        dsimp only
        refine ⟨by simp [loadPure, hs, hp, Except.map], ?_⟩
        intro d c' h
        exact Except.noConfusion h
      | ok d0 =>
        dsimp only
        refine ⟨by simp [loadPure, hs, hp, Except.map], ?_⟩
        intro d c' h
        obtain ⟨h1, h2⟩ : d0 = d ∧ dictInsert cache n d0 = c' := by simpa using h
        rw [← h2]
        intro m dm hm
        by_cases hmn : m = n
        · subst hmn
          rw [dictLookup_dictInsert_self] at hm
          obtain h3 : d0 = dm := by simpa using hm
          rw [← h3]
          simp [loadPure, hs, hp]
        · rw [dictLookup_dictInsert_ne cache n m d0 hmn] at hm
          exact hcoh m dm hm

theorem mk_rel (src : String → Option String) (fuel : Nat) :
    ∀ (cache : Cache) (d : ChipDefinition), CacheCoherent src cache →
      (mkChipInstance fuel src cache d).map Prod.fst = mkInstP fuel src d ∧
      (∀ inst c', mkChipInstance fuel src cache d = .ok (inst, c') →
        CacheCoherent src c') := by
  induction fuel with
  | zero =>
    intro cache d hcoh
    exact ⟨rfl, fun inst c' h => Except.noConfusion h⟩
  | succ f ih =>
    intro cache d hcoh
    have hparts : ∀ (ps : List PartInstance) (cache : Cache), CacheCoherent src cache →
        (instantiateParts (mkChipInstance f src) src cache ps).map Prod.fst
          = instPartsP (mkInstP f src) src ps ∧
        (∀ subs c', instantiateParts (mkChipInstance f src) src cache ps = .ok (subs, c') →
          CacheCoherent src c') := by
      intro ps
      induction ps with
      | nil =>
        intro cache hcoh
        refine ⟨rfl, ?_⟩
        intro subs c' h
        obtain ⟨-, h2⟩ : [] = subs ∧ cache = c' := by simpa [instantiateParts] using h
        rw [← h2]
        exact hcoh
      | cons p rest ihp =>
        intro cache hcoh
        rw [instantiateParts.eq_def, instPartsP.eq_def]
        dsimp only
        by_cases hb : builtinNames.contains p.chip_type = true
        · rw [if_pos hb, if_pos hb]
          simp only [bind, Except.bind]
          cases hrest : instantiateParts (mkChipInstance f src) src cache rest with
          | error e =>
            obtain ⟨heq, -⟩ := ihp cache hcoh
            rw [hrest] at heq
            rw [← heq]
            exact ⟨rfl, fun subs c' h => Except.noConfusion h⟩
          | ok pr =>
            obtain ⟨subs0, c0⟩ := pr
            obtain ⟨heq, hco⟩ := ihp cache hcoh
            rw [hrest] at heq
            rw [← heq]
            dsimp only [Except.map]
            refine ⟨rfl, ?_⟩
            intro subs c' h
            obtain ⟨-, h2⟩ : SubEntry.builtin p.chip_type p.connections :: subs0 = subs ∧ c0 = c' := by
              simpa using h
            rw [← h2]
            exact hco subs0 c0 hrest
        · rw [if_neg hb, if_neg hb]
          simp only [bind, Except.bind]
          cases hld : loadChipDefinition src cache p.chip_type with
          | error e =>
            obtain ⟨heq, -⟩ := load_rel src cache p.chip_type hcoh
            rw [hld] at heq
            rw [← heq]
            exact ⟨rfl, fun subs c' h => Except.noConfusion h⟩
          | ok pr1 =>
            obtain ⟨d1, c1⟩ := pr1
            obtain ⟨heqL, hcoL⟩ := load_rel src cache p.chip_type hcoh
            rw [hld] at heqL
            rw [← heqL]
            dsimp only [Except.map]
            have hcoh1 : CacheCoherent src c1 := hcoL d1 c1 hld
            cases hmk : mkChipInstance f src c1 d1 with
            | error e =>
              obtain ⟨heqM, -⟩ := ih c1 d1 hcoh1
              rw [hmk] at heqM
              rw [← heqM]
              exact ⟨rfl, fun subs c' h => Except.noConfusion h⟩
            | ok pr2 =>
              obtain ⟨i1, c2⟩ := pr2
              obtain ⟨heqM, hcoM⟩ := ih c1 d1 hcoh1
              rw [hmk] at heqM
              rw [← heqM]
              dsimp only [Except.map]
              have hcoh2 : CacheCoherent src c2 := hcoM i1 c2 hmk
              cases hrest : instantiateParts (mkChipInstance f src) src c2 rest with
              | error e =>
                obtain ⟨heqR, -⟩ := ihp c2 hcoh2
                rw [hrest] at heqR
                rw [← heqR]
                exact ⟨rfl, fun subs c' h => Except.noConfusion h⟩
              | ok pr3 =>
                obtain ⟨subs0, c3⟩ := pr3
                obtain ⟨heqR, hcoR⟩ := ihp c2 hcoh2
                rw [hrest] at heqR
                rw [← heqR]
                dsimp only [Except.map]
                refine ⟨rfl, ?_⟩
                intro subs c' h
                obtain ⟨-, h2⟩ :
                    SubEntry.custom p.chip_type p.connections i1 :: subs0 = subs ∧ c3 = c' := by
                  simpa using h
                rw [← h2]
                exact hcoR subs0 c3 hrest
    rw [mkChipInstance_succ, mkInstP_succ]
    simp only [mkChipBody, mkChipBodyP, bind, Except.bind]
    cases hps : instantiateParts (mkChipInstance f src) src cache d.parts with
    | error e =>
      obtain ⟨heq, -⟩ := hparts d.parts cache hcoh
      rw [hps] at heq
      rw [← heq]
      exact ⟨rfl, fun inst c' h => Except.noConfusion h⟩
    | ok pr =>
      obtain ⟨subs0, c0⟩ := pr
      obtain ⟨heq, hco⟩ := hparts d.parts cache hcoh
      rw [hps] at heq
      rw [← heq]
      dsimp only [Except.map]
      refine ⟨rfl, ?_⟩
      intro inst c' h
      obtain ⟨-, h2⟩ : ChipInst.mk d (initSignals d) subs0 = inst ∧ c0 = c' := by simpa using h
      rw [← h2]
      exact hco subs0 c0 hps


theorem simulateChip_rel (fuel : Nat) (src : String → Option String) (cache : Cache)
    (name : String) (ins : List (String × Int)) (hcoh : CacheCoherent src cache) :
    (simulateChip fuel src cache name ins).map Prod.fst = simulateChipP fuel src name ins ∧
    (∀ out c', simulateChip fuel src cache name ins = .ok (out, c') →
      CacheCoherent src c') := by
  simp only [simulateChip, simulateChipP, bind, Except.bind]
  cases hld : loadChipDefinition src cache name with
  | error e =>
    obtain ⟨heq, -⟩ := load_rel src cache name hcoh
    rw [hld] at heq
    rw [← heq]
    exact ⟨rfl, fun out c' h => Except.noConfusion h⟩
  | ok pr1 =>
    obtain ⟨d, c1⟩ := pr1
    obtain ⟨heqL, hcoL⟩ := load_rel src cache name hcoh
    rw [hld] at heqL
    rw [← heqL]
    dsimp only [Except.map]
    have hcoh1 : CacheCoherent src c1 := hcoL d c1 hld
    cases hmk : mkChipInstance fuel src c1 d with
    | error e =>
      obtain ⟨heqM, -⟩ := mk_rel src fuel c1 d hcoh1
      rw [hmk] at heqM
      rw [← heqM]
      exact ⟨rfl, fun out c' h => Except.noConfusion h⟩
    | ok pr2 =>
      obtain ⟨inst, c2⟩ := pr2
      obtain ⟨heqM, hcoM⟩ := mk_rel src fuel c1 d hcoh1
      rw [hmk] at heqM
      rw [← heqM]
      dsimp only [Except.map]
      have hcoh2 : CacheCoherent src c2 := hcoM inst c2 hmk
      cases hsim : simulate fuel
          (inst.set_inputs (ins.map (fun pv => (pv.1, some pv.2)))) with
      | error e =>
        dsimp only
        exact ⟨rfl, fun out c' h => Except.noConfusion h⟩
      | ok outs =>
        dsimp only
        refine ⟨rfl, ?_⟩
        intro out c' h
        obtain ⟨-, h2⟩ : outs = out ∧ c2 = c' := by simpa using h
        rw [← h2]
        exact hcoh2

/-- C8: with a coherent definition cache (as a fresh ChipSimulator's empty
cache is, and as load_chip_definition preserves), simulating the same chip
with the same input map twice yields the identical output map: the second
call, run with the cache state the first call left behind, returns the same
outputs. Each call builds its instance tree from scratch; the cache is the
only state carried between calls. -/
theorem simulate_chip_idempotent (fuel : Nat) (src : String → Option String)
    (cache : Cache) (name : String) (ins : List (String × Int))
    (out : List (String × Option Int)) (cache1 : Cache)
    (hcoh : CacheCoherent src cache)
    (h1 : simulateChip fuel src cache name ins = .ok (out, cache1)) :
    ∃ cache2, simulateChip fuel src cache1 name ins = .ok (out, cache2) := by
  obtain ⟨heq, hco⟩ := simulateChip_rel fuel src cache name ins hcoh
  have hpure : simulateChipP fuel src name ins = .ok out := by
    rw [← heq, h1]
    rfl
  have hcoh1 : CacheCoherent src cache1 := hco out cache1 h1
  obtain ⟨heq2, -⟩ := simulateChip_rel fuel src cache1 name ins hcoh1
  cases h2 : simulateChip fuel src cache1 name ins with
  | error e =>
    rw [h2] at heq2
    rw [hpure] at heq2
    exact Except.noConfusion heq2
  | ok pr =>
    obtain ⟨out2, c2⟩ := pr
    rw [h2] at heq2
    rw [hpure] at heq2
    obtain h3 : out2 = out := by simpa [Except.map] using heq2
    exact ⟨c2, by rw [h3]⟩

/-- C8 witness: simulating And(1,1) again with the cache produced by a first
call from the empty cache returns the same output map. -/
theorem simulate_chip_idempotent_witness :
    ∃ cache2, simulateChip 10 andSrc [("And", andDef)] ("And") [("a", 1), ("b", 1)]
      = .ok ([("out", some 1)], cache2) :=
  simulate_chip_idempotent 10 andSrc [] ("And") [("a", 1), ("b", 1)]
    [("out", some 1)] [("And", andDef)]
    (by intro n d h; simp [dictLookup] at h) rfl

end HDL
